import Mathlib

/-!
Shallow embedding of the Game of Life engine (src/board.c, src/rules.c).

Boards are modelled as a record of dimensions and a cell function
`Nat → Nat` indexed by the flat index `row * width + col`, mirroring the
C layout `char *cells` with index arithmetic `x * board->width + y`.
Fallible C functions (returning `-1` / writing through an out-pointer)
become `Option`-valued Lean functions: `none` models the `-1` error
return on which no result is written.
-/

namespace GameOfLife

/-- Mirrors `#define MAX_NEIGHBORS 8` from rules.h. -/
def MAX_NEIGHBORS : Nat := 8

/-- Mirrors `struct Rules` from rules.h: two bit masks (uint16_t in C; the
constructor only ever sets bits 0..8, so Nat is a faithful carrier for
every operation performed on them) and a display name. -/
structure Rules where
  birth_rules : Nat
  survival_rules : Nat
  name : String

/-- One step of the mask-building loops of `rules_init` (rules.c lines
40-51): a count in [0, MAX_NEIGHBORS] sets its bit, anything else is
skipped. -/
def maskStep (m : Nat) (c : Int) : Nat :=
  if 0 ≤ c ∧ c ≤ (MAX_NEIGHBORS : Int) then m ||| (1 <<< c.toNat) else m

/-- Mirrors `rules_init` (rules.c lines 30-58), on the allocation-success
path: the masks start at 0 and each listed count in range sets one bit;
the name is copied truncated to 63 characters (`strncpy` into a 64-byte
buffer). The C array-plus-length arguments are modelled as lists. -/
def rules_init (name : String) (birth_counts : List Int) (survival_counts : List Int) : Rules :=
  { birth_rules := birth_counts.foldl maskStep 0
    survival_rules := survival_counts.foldl maskStep 0
    name := name.take 63 }

/-- Mirrors `rules_conway` (rules.c lines 70-74). -/
def rules_conway : Rules :=
  rules_init "Conways Life (B3/S23)" [3] [2, 3]

/-- Mirrors `rules_highlife` (rules.c lines 87-91). -/
def rules_highlife : Rules :=
  rules_init "HighLife (B36/S23)" [3, 6] [2, 3]

/-- Mirrors `rules_day_night` (rules.c lines 104-108). -/
def rules_day_night : Rules :=
  rules_init "Day and Night (B3678/S34678)" [3, 6, 7, 8] [3, 4, 6, 7, 8]

/-- Mirrors `rules_maze` (rules.c lines 121-125). -/
def rules_maze : Rules :=
  rules_init "Maze (B3/S12345)" [3] [1, 2, 3, 4, 5]

/-- Mirrors `rules_apply` (rules.c lines 140-154). The C function returns
-1 (here: `none`) without writing `*result` when `neighbor_count` is
outside [0, MAX_NEIGHBORS]; otherwise it writes the mask-bit test for the
current state's mask and returns 0 (here: `some result`).
`neighbor_count` is an `int` in C, hence `Int` here. -/
def rules_apply (rules : Rules) (current_state : Nat) (neighbor_count : Int) : Option Nat :=
  if neighbor_count < 0 ∨ neighbor_count > (MAX_NEIGHBORS : Int) then none
  else some
    (if current_state ≠ 0 then
       (if rules.survival_rules &&& (1 <<< neighbor_count.toNat) ≠ 0 then 1 else 0)
     else
       (if rules.birth_rules &&& (1 <<< neighbor_count.toNat) ≠ 0 then 1 else 0))

/-- Mirrors `struct Board` from board.h: dimensions and the flat cell
array, as a total function on flat indices. -/
structure Board where
  height : Nat
  width : Nat
  cells : Nat → Nat

/-- A board is well-formed when every in-range cell of the backing array
holds 0 or 1, as every writer in board.c maintains. -/
def WellFormed (b : Board) : Prop :=
  ∀ i, i < b.width * b.height → b.cells i ≤ 1

/-- The neighbor-counting loops of `is_cell_alive_next_gen` (board.c
lines 119-130): `for (i = MAX((int)x-1, 0); i <= MIN(x+1, height-1); i++)`
and the same for `j` over the width, summing `cells[i*width+j]` and
skipping the center `(x, y)`. Each inclusive C range `lo..hi` becomes the
list `List.range' lo (hi + 1 - lo)` and the accumulation becomes the sum
over it; `MAX((int)x-1, 0)` is Nat truncated subtraction. -/
def neighborCount (b : Board) (x y : Nat) : Nat :=
  ((List.range' (x - 1) (min (x + 1) (b.height - 1) + 1 - (x - 1))).map fun i =>
    ((List.range' (y - 1) (min (y + 1) (b.width - 1) + 1 - (y - 1))).map fun j =>
      if i = x ∧ j = y then 0 else b.cells (i * b.width + j)).sum).sum

/-- Mirrors `is_cell_alive_next_gen` (board.c lines 115-135): bounds
guard, neighbor count, then `rules_apply` on the center cell. -/
def is_cell_alive_next_gen (b : Board) (rules : Rules) (x y : Nat) : Option Nat :=
  if b.height ≤ x ∨ b.width ≤ y then none
  else rules_apply rules (b.cells (x * b.width + y)) (neighborCount b x y : Int)

/-- The flat loop of `board_next` (board.c lines 154-164), processing the
given flat indices in order: each index is split as `x = i / width`,
`y = i % width`, the per-cell result is computed from `b` and written at
index `i` of the accumulating output cell array; an error from
`is_cell_alive_next_gen` aborts the whole call. -/
def next_loop (b : Board) (rules : Rules) : List Nat → (Nat → Nat) → Option (Nat → Nat)
  | [], cells => some cells
  | i :: rest, cells =>
    match is_cell_alive_next_gen b rules (i / b.width) (i % b.width) with
    | none => none
    | some r => next_loop b rules rest (fun j => if j = i then r else cells j)

/-- Mirrors `board_next` (board.c lines 149-167): dimension equality
guard, then the flat loop over `0 ≤ i < width * height` writing into
`out`'s cell array. -/
def board_next (b out : Board) (rules : Rules) : Option Board :=
  if b.width ≠ out.width ∨ b.height ≠ out.height then none
  else (next_loop b rules (List.range (b.width * b.height)) out.cells).map
    fun cs => { out with cells := cs }

/-- Mirrors `board_clear` (board.c lines 208-216): every in-range flat
index is set to 0. -/
def board_clear (b : Board) : Board :=
  { b with cells := fun i => if i < b.width * b.height then 0 else b.cells i }

/-- The character loop of `board_from_file` (board.c lines 245-263) over
the file's character stream: a newline resets the column and advances the
row; any other character is bounds-checked (failing the whole call when
out of range) and stored as `c != '0'`. -/
def load_loop (b : Board) : List Char → Nat → Nat → (Nat → Nat) → Option (Nat → Nat)
  | [], _, _, cells => some cells
  | c :: rest, x, y, cells =>
    if c = '\n' then load_loop b rest (x + 1) 0 cells
    else if b.height ≤ x ∨ b.width ≤ y then none
    else load_loop b rest x (y + 1)
      (fun j => if j = x * b.width + y then (if c ≠ '0' then 1 else 0) else cells j)

/-- Mirrors `board_from_file` (board.c lines 229-268) on the
file-opened-successfully path, with the file's contents given as the
character list `text`: the board is cleared first, then the character
loop runs from position (0, 0). -/
def board_from_file (text : List Char) (b : Board) : Option Board :=
  (load_loop b text 0 0 (board_clear b).cells).map fun cs => { b with cells := cs }

/-- A board as returned by `board_init` (board.c lines 32-45): the cell
pointer may be NULL (`none`) because the C code never checks the result
of `calloc`. -/
structure CBoard where
  height : Nat
  width : Nat
  cells : Option (Nat → Nat)

/-- Mirrors `board_init` (board.c lines 32-45). The two allocations are
modelled by oracle booleans: `structAlloc` for `malloc(sizeof(Board))`
(checked: `none` is returned when it fails) and `cellsAlloc` for the
`calloc` of the cell buffer, whose result the C code stores UNCHECKED
into `board->cells` before returning the board. `calloc` zero-fills, so
a successful cell allocation is the all-dead function. -/
def board_init (height width : Nat) (structAlloc cellsAlloc : Bool) : Option CBoard :=
  if structAlloc = false then none
  else some
    { height := height
      width := width
      cells := if cellsAlloc then some (fun _ => 0) else none }

/-! Spec-side definitions, written from the spec's words, for the
refinement-style claims that compare the implementation against an
independent description. -/

/-- Modelled from the spec: the clamped 3x3 neighborhood of `(row, col)`,
"the at-most-8 cells of the 3x3 block centered on (row,col), with the
block clamped to [0,height-1]x[0,width-1] ... and the center cell
excluded". -/
def clampedNeighborSet (b : Board) (row col : Nat) : Finset (Nat × Nat) :=
  (Finset.range b.height ×ˢ Finset.range b.width).filter fun p =>
    row - 1 ≤ p.1 ∧ p.1 ≤ row + 1 ∧ col - 1 ≤ p.2 ∧ p.2 ≤ col + 1 ∧ p ≠ (row, col)

/-- Modelled from the spec: "the exact number of alive cells among" the
clamped neighbors. -/
def aliveNeighborCard (b : Board) (row col : Nat) : Nat :=
  ((clampedNeighborSet b row col).filter fun p => b.cells (p.1 * b.width + p.2) ≠ 0).card

/-- Modelled from the spec: a pattern text built from rows "separated by
a single newline character". -/
def encodeRows : List (List Char) → List Char
  | [] => []
  | [row] => row
  | row :: rest => row ++ '\n' :: encodeRows rest

/-- The effect on the cell array of loading one row of characters
starting at `(x, y)`: each character is stored at its flat index as
`c != '0'`, column by column. Used to characterize `load_loop`. -/
def paintRow (b : Board) (x : Nat) : Nat → (Nat → Nat) → List Char → (Nat → Nat)
  | _, cells, [] => cells
  | y, cells, c :: cs =>
    paintRow b x (y + 1)
      (fun j => if j = x * b.width + y then (if c ≠ '0' then 1 else 0) else cells j) cs

/-- The effect on the cell array of loading a list of rows starting at
row `x`, each row starting at column 0. -/
def paintRows (b : Board) : Nat → (Nat → Nat) → List (List Char) → (Nat → Nat)
  | _, cells, [] => cells
  | x, cells, row :: rest => paintRows b (x + 1) (paintRow b x 0 cells row) rest


/-- The 5x5 horizontal blinker of the spec: all dead except (2,1), (2,2),
(2,3). -/
def blinkerH : Board :=
  ⟨5, 5, fun i => if i = 2 * 5 + 1 ∨ i = 2 * 5 + 2 ∨ i = 2 * 5 + 3 then 1 else 0⟩

/-- The 5x5 vertical blinker: all dead except (1,2), (2,2), (3,2). -/
def blinkerV : Board :=
  ⟨5, 5, fun i => if i = 1 * 5 + 2 ∨ i = 2 * 5 + 2 ∨ i = 3 * 5 + 2 then 1 else 0⟩

/-- An all-dead 5x5 board, used as the step output buffer. -/
def deadFive : Board := ⟨5, 5, fun _ => 0⟩




lemma and_shift_ne_zero (m n : Nat) : m &&& (1 <<< n) ≠ 0 ↔ m.testBit n = true := by
  rw [Nat.one_shiftLeft, Nat.and_two_pow]
  cases h : m.testBit n <;> simp [h, (Nat.two_pow_pos n).ne']

lemma testBit_maskStep (m : Nat) (c : Int) (k : Nat) :
    (maskStep m c).testBit k = true ↔
      (m.testBit k = true ∨ ((k : Int) = c ∧ k ≤ MAX_NEIGHBORS)) := by
  unfold maskStep MAX_NEIGHBORS
  split
  case isTrue h =>
    rw [Nat.testBit_lor, Nat.one_shiftLeft, Nat.testBit_two_pow]
    simp only [Bool.or_eq_true, decide_eq_true_eq]
    exact or_congr Iff.rfl (by omega)
  case isFalse h =>
    constructor
    · exact Or.inl
    · rintro (hm | ⟨hkc, hk8⟩)
      · exact hm
      · exfalso; omega

lemma foldl_maskStep_testBit (l : List Int) (acc : Nat) (k : Nat) :
    ((l.foldl maskStep acc).testBit k = true) ↔
      (acc.testBit k = true ∨ ((k : Int) ∈ l ∧ k ≤ MAX_NEIGHBORS)) := by
  induction l generalizing acc with
  | nil => simp
  | cons c cs ih =>
    rw [List.foldl_cons, ih, testBit_maskStep]
    simp only [List.mem_cons]
    constructor
    · rintro ((hm | ⟨hkc, hk⟩) | ⟨hmem, hk⟩)
      · exact Or.inl hm
      · exact Or.inr ⟨Or.inl hkc, hk⟩
      · exact Or.inr ⟨Or.inr hmem, hk⟩
    · rintro (hm | ⟨(hkc | hmem), hk⟩)
      · exact Or.inl (Or.inl hm)
      · exact Or.inl (Or.inr ⟨hkc, hk⟩)
      · exact Or.inr ⟨hmem, hk⟩

/-- Claim C9: `rules_init` sets bit `k` of each mask iff `k ≤ 8` and `k`
occurs in the corresponding count list; entries outside [0,8] are ignored
without affecting any bit, so no bit above 8 is ever set. -/
theorem rules_init_mask_char (name : String) (birth_counts survival_counts : List Int) (k : Nat) :
    ((rules_init name birth_counts survival_counts).birth_rules.testBit k = true ↔
      ((k : Int) ∈ birth_counts ∧ k ≤ 8)) ∧
    ((rules_init name birth_counts survival_counts).survival_rules.testBit k = true ↔
      ((k : Int) ∈ survival_counts ∧ k ≤ 8)) ∧
    (8 < k → (rules_init name birth_counts survival_counts).birth_rules.testBit k = false ∧
      (rules_init name birth_counts survival_counts).survival_rules.testBit k = false) := by
  unfold rules_init
  refine ⟨?_, ?_, ?_⟩
  · rw [foldl_maskStep_testBit]; simp [MAX_NEIGHBORS]
  · rw [foldl_maskStep_testBit]; simp [MAX_NEIGHBORS]
  · intro hk
    constructor <;>
      · rw [Bool.eq_false_iff, Ne, foldl_maskStep_testBit]
        rintro (h | ⟨-, h8⟩)
        · simp at h
        · simp [MAX_NEIGHBORS] at h8; omega

/-- Witness for C9: an out-of-range entry 9 and a negative entry in the
birth list set no bit, and bit 9 of both masks is clear. -/
theorem rules_init_mask_char_witness :
    (rules_init "Custom" [3, 9, -1] [2, 3]).birth_rules.testBit 9 = false ∧
      (rules_init "Custom" [3, 9, -1] [2, 3]).survival_rules.testBit 9 = false :=
  (rules_init_mask_char "Custom" [3, 9, -1] [2, 3] 9).2.2 (by norm_num)




lemma presetMask (m : Nat) (p : Nat → Prop) [DecidablePred p] (hm : m < 512)
    (hp : ∀ k, p k → k < 9) (hlow : ∀ k, k < 9 → (m.testBit k = true ↔ p k)) :
    ∀ k, m.testBit k = true ↔ p k := by
  intro k
  by_cases hk : k < 9
  · exact hlow k hk
  · have h2 : m < 2 ^ k := by
      calc m < 512 := hm
      _ = 2 ^ 9 := by norm_num
      _ ≤ 2 ^ k := Nat.pow_le_pow_right (by norm_num) (by omega)
    rw [Nat.testBit_lt_two_pow h2]
    constructor
    · intro h; exact absurd h (by simp)
    · intro hpk; exact absurd (hp k hpk) hk

/-- Claim C4: the four built-in presets have exactly the specified masks,
bit for bit: Conway B{3}/S{2,3}, HighLife B{3,6}/S{2,3}, Day and Night
B{3,6,7,8}/S{3,4,6,7,8}, Maze B{3}/S{1,2,3,4,5}; no other bit is set in
any preset mask. -/
theorem presets_bit_for_bit :
    (∀ k, rules_conway.birth_rules.testBit k = true ↔ k = 3) ∧
    (∀ k, rules_conway.survival_rules.testBit k = true ↔ (k = 2 ∨ k = 3)) ∧
    (∀ k, rules_highlife.birth_rules.testBit k = true ↔ (k = 3 ∨ k = 6)) ∧
    (∀ k, rules_highlife.survival_rules.testBit k = true ↔ (k = 2 ∨ k = 3)) ∧
    (∀ k, rules_day_night.birth_rules.testBit k = true ↔ (k = 3 ∨ k = 6 ∨ k = 7 ∨ k = 8)) ∧
    (∀ k, rules_day_night.survival_rules.testBit k = true ↔
      (k = 3 ∨ k = 4 ∨ k = 6 ∨ k = 7 ∨ k = 8)) ∧
    (∀ k, rules_maze.birth_rules.testBit k = true ↔ k = 3) ∧
    (∀ k, rules_maze.survival_rules.testBit k = true ↔
      (k = 1 ∨ k = 2 ∨ k = 3 ∨ k = 4 ∨ k = 5)) := by
  refine ⟨?_, ?_, ?_, ?_, ?_, ?_, ?_, ?_⟩ <;>
    exact presetMask _ _ (by decide) (fun k hk => by omega) (by decide)



/-- Claim C3: `rules_apply` with a neighbor count outside [0,8] reports
an error and writes no result (`none`); with a count in [0,8] it succeeds
and the result is bit `count` of the survival mask when the current state
is alive, and bit `count` of the birth mask when it is dead. -/
theorem rules_apply_char (rules : Rules) (current_state : Nat) (neighbor_count : Int) :
    ((neighbor_count < 0 ∨ 8 < neighbor_count) →
      rules_apply rules current_state neighbor_count = none) ∧
    (0 ≤ neighbor_count → neighbor_count ≤ 8 → current_state ≠ 0 →
      rules_apply rules current_state neighbor_count =
        some (if rules.survival_rules.testBit neighbor_count.toNat then 1 else 0)) ∧
    (0 ≤ neighbor_count → neighbor_count ≤ 8 → current_state = 0 →
      rules_apply rules current_state neighbor_count =
        some (if rules.birth_rules.testBit neighbor_count.toNat then 1 else 0)) := by
  unfold rules_apply
  refine ⟨fun h => ?_, fun h0 h8 hs => ?_, fun h0 h8 hs => ?_⟩
  · rw [if_pos]
    simp only [MAX_NEIGHBORS]
    push_cast
    omega
  · rw [if_neg (by simp only [MAX_NEIGHBORS]; push_cast; omega), if_pos hs]
    congr 1
    by_cases hb : rules.survival_rules.testBit neighbor_count.toNat = true
    · rw [if_pos ((and_shift_ne_zero _ _).2 hb), if_pos hb]
    · rw [if_neg (fun hc => hb ((and_shift_ne_zero _ _).1 hc)), if_neg hb]
  · rw [if_neg (by simp only [MAX_NEIGHBORS]; push_cast; omega), if_neg (by simp [hs])]
    congr 1
    by_cases hb : rules.birth_rules.testBit neighbor_count.toNat = true
    · rw [if_pos ((and_shift_ne_zero _ _).2 hb), if_pos hb]
    · rw [if_neg (fun hc => hb ((and_shift_ne_zero _ _).1 hc)), if_neg hb]

/-- Witness for C3 at concrete inputs: counts 9 and -1 fail, count 2 on a
live cell under the Conway preset succeeds. -/
theorem rules_apply_char_witness :
    rules_apply rules_conway 1 9 = none ∧ rules_apply rules_conway 1 (-1) = none ∧
      rules_apply rules_conway 1 2 = some 1 := by
  refine ⟨(rules_apply_char rules_conway 1 9).1 (by norm_num),
    (rules_apply_char rules_conway 1 (-1)).1 (by norm_num), ?_⟩
  rw [(rules_apply_char rules_conway 1 2).2.1 (by norm_num) (by norm_num) (by norm_num)]
  decide



lemma flat_lt {h w : Nat} (i j : Nat) (hi : i < h) (hj : j < w) : i * w + j < w * h :=
  calc i * w + j < (i + 1) * w := by rw [Nat.add_mul, Nat.one_mul]; omega
    _ ≤ h * w := Nat.mul_le_mul_right w hi
    _ = w * h := Nat.mul_comm h w

lemma sum_Icc_eq_list_sum (lo hi : Nat) (f : Nat → Nat) :
    ∑ i ∈ Finset.Icc lo hi, f i = ((List.range' lo (hi + 1 - lo)).map f).sum := by
  rw [Nat.Icc_eq_range']
  rfl

lemma neighborCount_eq_Icc (b : Board) (x y : Nat) :
    neighborCount b x y =
      ∑ i ∈ Finset.Icc (x - 1) (min (x + 1) (b.height - 1)),
        ∑ j ∈ Finset.Icc (y - 1) (min (y + 1) (b.width - 1)),
          (if i = x ∧ j = y then 0 else b.cells (i * b.width + j)) := by
  simp only [sum_Icc_eq_list_sum]
  rfl

lemma nc_sum_step1 (b : Board) (x y : Nat) :
    neighborCount b x y =
      ∑ p ∈ (Finset.Icc (x - 1) (min (x + 1) (b.height - 1)) ×ˢ
          Finset.Icc (y - 1) (min (y + 1) (b.width - 1))),
        (if p.1 = x ∧ p.2 = y then 0 else b.cells (p.1 * b.width + p.2)) := by
  rw [neighborCount_eq_Icc, Finset.sum_product]

lemma nc_sum_step2 (b : Board) (x y : Nat) (hwf : WellFormed b)
    (hx : x < b.height) (hy : y < b.width) :
    ∑ p ∈ (Finset.Icc (x - 1) (min (x + 1) (b.height - 1)) ×ˢ
        Finset.Icc (y - 1) (min (y + 1) (b.width - 1))),
      (if p.1 = x ∧ p.2 = y then 0 else b.cells (p.1 * b.width + p.2)) =
    ∑ p ∈ (Finset.Icc (x - 1) (min (x + 1) (b.height - 1)) ×ˢ
        Finset.Icc (y - 1) (min (y + 1) (b.width - 1))),
      (if ((x - 1 ≤ p.1 ∧ p.1 ≤ x + 1 ∧ y - 1 ≤ p.2 ∧ p.2 ≤ y + 1 ∧ p ≠ (x, y)) ∧
          b.cells (p.1 * b.width + p.2) ≠ 0) then 1 else 0) := by
  apply Finset.sum_congr rfl
  rintro ⟨i, j⟩ hp
  simp only [Finset.mem_product, Finset.mem_Icc] at hp
  obtain ⟨⟨hi1, hi2⟩, hj1, hj2⟩ := hp
  have hih : i < b.height := by omega
  have hjw : j < b.width := by omega
  have hv : b.cells (i * b.width + j) ≤ 1 := hwf _ (flat_lt i j hih hjw)
  by_cases hcen : i = x ∧ j = y
  · rw [if_pos hcen, if_neg]
    rintro ⟨⟨-, -, -, -, hne⟩, -⟩
    exact hne (by rw [Prod.mk.injEq]; exact hcen)
  · rw [if_neg hcen]
    by_cases hz : b.cells (i * b.width + j) = 0
    · rw [hz, if_neg]
      rintro ⟨-, hnz⟩
      exact hnz rfl
    · have hcond : ((x - 1 ≤ i ∧ i ≤ x + 1 ∧ y - 1 ≤ j ∧ j ≤ y + 1 ∧
          (i, j) ≠ (x, y)) ∧ b.cells (i * b.width + j) ≠ 0) := by
        refine ⟨⟨by omega, by omega, by omega, by omega, fun hc => ?_⟩, hz⟩
        rw [Prod.mk.injEq] at hc
        exact hcen hc
      rw [if_pos hcond]
      show b.cells (i * b.width + j) = 1
      omega

lemma nc_sum_step3 (b : Board) (x y : Nat) (hx : x < b.height) (hy : y < b.width) :
    ∑ p ∈ (Finset.Icc (x - 1) (min (x + 1) (b.height - 1)) ×ˢ
        Finset.Icc (y - 1) (min (y + 1) (b.width - 1))),
      (if ((x - 1 ≤ p.1 ∧ p.1 ≤ x + 1 ∧ y - 1 ≤ p.2 ∧ p.2 ≤ y + 1 ∧ p ≠ (x, y)) ∧
          b.cells (p.1 * b.width + p.2) ≠ 0) then 1 else 0) =
    ∑ p ∈ (Finset.range b.height ×ˢ Finset.range b.width),
      (if ((x - 1 ≤ p.1 ∧ p.1 ≤ x + 1 ∧ y - 1 ≤ p.2 ∧ p.2 ≤ y + 1 ∧ p ≠ (x, y)) ∧
          b.cells (p.1 * b.width + p.2) ≠ 0) then 1 else 0) := by
  apply Finset.sum_subset
  · rintro ⟨i, j⟩ hp
    simp only [Finset.mem_product, Finset.mem_Icc] at hp
    simp only [Finset.mem_product, Finset.mem_range]
    omega
  · rintro ⟨i, j⟩ hpT hpAB
    simp only [Finset.mem_product, Finset.mem_range] at hpT
    simp only [Finset.mem_product, Finset.mem_Icc] at hpAB
    rw [if_neg]
    rintro ⟨⟨h1, h2, h3, h4, -⟩, -⟩
    exact hpAB ⟨⟨h1, by omega⟩, h3, by omega⟩

lemma nc_sum_step4 (b : Board) (x y : Nat) :
    ∑ p ∈ (Finset.range b.height ×ˢ Finset.range b.width),
      (if ((x - 1 ≤ p.1 ∧ p.1 ≤ x + 1 ∧ y - 1 ≤ p.2 ∧ p.2 ≤ y + 1 ∧ p ≠ (x, y)) ∧
          b.cells (p.1 * b.width + p.2) ≠ 0) then 1 else 0) =
      aliveNeighborCard b x y := by
  unfold aliveNeighborCard clampedNeighborSet
  rw [Finset.filter_filter, Finset.card_filter]

lemma neighborCount_eq_card (b : Board) (x y : Nat) (hwf : WellFormed b)
    (hx : x < b.height) (hy : y < b.width) :
    neighborCount b x y = aliveNeighborCard b x y := by
  rw [nc_sum_step1 b x y, nc_sum_step2 b x y hwf hx hy, nc_sum_step3 b x y hx hy,
    nc_sum_step4 b x y]

lemma aliveNeighborCard_le (b : Board) (x y : Nat) :
    aliveNeighborCard b x y ≤ (x + 1 + 1 - (x - 1)) * (y + 1 + 1 - (y - 1)) - 1 := by
  have hsub : clampedNeighborSet b x y ⊆
      (Finset.Icc (x - 1) (x + 1) ×ˢ Finset.Icc (y - 1) (y + 1)).erase (x, y) := by
    intro p hp
    unfold clampedNeighborSet at hp
    simp only [Finset.mem_filter, Finset.mem_product, Finset.mem_range] at hp
    obtain ⟨-, h1, h2, h3, h4, h5⟩ := hp
    simp only [Finset.mem_erase, Finset.mem_product, Finset.mem_Icc]
    exact ⟨h5, ⟨h1, h2⟩, h3, h4⟩
  have hmem : (x, y) ∈ Finset.Icc (x - 1) (x + 1) ×ˢ Finset.Icc (y - 1) (y + 1) := by
    simp only [Finset.mem_product, Finset.mem_Icc]
    omega
  calc aliveNeighborCard b x y
      ≤ (clampedNeighborSet b x y).card := Finset.card_filter_le _ _
    _ ≤ ((Finset.Icc (x - 1) (x + 1) ×ˢ Finset.Icc (y - 1) (y + 1)).erase (x, y)).card :=
        Finset.card_le_card hsub
    _ = (x + 1 + 1 - (x - 1)) * (y + 1 + 1 - (y - 1)) - 1 := by
        rw [Finset.card_erase_of_mem hmem, Finset.card_product, Nat.card_Icc, Nat.card_Icc]

/-- Claim C2: for a well-formed grid and an in-bounds position, the
neighbor count of the implementation equals the exact number of alive
cells among the clamped 3x3 block with the center excluded (no
wraparound); the count never exceeds 8, and at the corner (0,0) it never
exceeds 3. -/
theorem neighbor_count_correct (b : Board) (row col : Nat) (hwf : WellFormed b)
    (hr : row < b.height) (hc : col < b.width) :
    neighborCount b row col = aliveNeighborCard b row col ∧
      neighborCount b row col ≤ 8 ∧
      (row = 0 → col = 0 → neighborCount b row col ≤ 3) := by
  have he := neighborCount_eq_card b row col hwf hr hc
  refine ⟨he, ?_, ?_⟩
  · rw [he]
    refine le_trans (aliveNeighborCard_le b row col) ?_
    have h1 : row + 1 + 1 - (row - 1) ≤ 3 := by omega
    have h2 : col + 1 + 1 - (col - 1) ≤ 3 := by omega
    calc (row + 1 + 1 - (row - 1)) * (col + 1 + 1 - (col - 1)) - 1
        ≤ 3 * 3 - 1 := Nat.sub_le_sub_right (Nat.mul_le_mul h1 h2) 1
      _ = 8 := by norm_num
  · rintro rfl rfl
    rw [he]
    exact le_trans (aliveNeighborCard_le b 0 0) (by norm_num)

/-- Witness for C2 on a concrete all-alive 3x3 grid at the corner. -/
theorem neighbor_count_correct_witness :
    neighborCount ⟨3, 3, fun _ => 1⟩ 0 0 = aliveNeighborCard ⟨3, 3, fun _ => 1⟩ 0 0 ∧
      neighborCount ⟨3, 3, fun _ => 1⟩ 0 0 ≤ 8 ∧
      (0 = 0 → 0 = 0 → neighborCount ⟨3, 3, fun _ => 1⟩ 0 0 ≤ 3) :=
  neighbor_count_correct ⟨3, 3, fun _ => 1⟩ 0 0 (fun i _ => Nat.le_refl 1)
    (by decide) (by decide)



lemma neighborCount_le_eight (b : Board) (x y : Nat) (hwf : WellFormed b)
    (hx : x < b.height) (hy : y < b.width) : neighborCount b x y ≤ 8 := by
  rw [neighborCount_eq_card b x y hwf hx hy]
  refine le_trans (aliveNeighborCard_le b x y) ?_
  have h1 : x + 1 + 1 - (x - 1) ≤ 3 := by omega
  have h2 : y + 1 + 1 - (y - 1) ≤ 3 := by omega
  calc (x + 1 + 1 - (x - 1)) * (y + 1 + 1 - (y - 1)) - 1
      ≤ 3 * 3 - 1 := Nat.sub_le_sub_right (Nat.mul_le_mul h1 h2) 1
    _ = 8 := by norm_num

lemma is_cell_eq (b : Board) (rules : Rules) (x y : Nat)
    (hx : x < b.height) (hy : y < b.width) :
    is_cell_alive_next_gen b rules x y =
      rules_apply rules (b.cells (x * b.width + y)) (neighborCount b x y : Int) := by
  unfold is_cell_alive_next_gen
  rw [if_neg (by omega)]

lemma rules_apply_isSome (rules : Rules) (s : Nat) (c : Int) (h0 : 0 ≤ c) (h8 : c ≤ 8) :
    (rules_apply rules s c).isSome = true := by
  unfold rules_apply MAX_NEIGHBORS
  rw [if_neg (by push_cast; omega)]
  rfl

lemma is_cell_isSome (b : Board) (rules : Rules) (x y : Nat) (hwf : WellFormed b)
    (hx : x < b.height) (hy : y < b.width) :
    (is_cell_alive_next_gen b rules x y).isSome = true := by
  rw [is_cell_eq b rules x y hx hy]
  exact rules_apply_isSome _ _ _ (Int.natCast_nonneg _)
    (by exact_mod_cast neighborCount_le_eight b x y hwf hx hy)

lemma next_loop_frame (b : Board) (rules : Rules) :
    ∀ (l : List Nat) (cells f : Nat → Nat), next_loop b rules l cells = some f →
      ∀ j, j ∉ l → f j = cells j := by
  intro l
  induction l with
  | nil =>
    intro cells f hf j _
    simp only [next_loop, Option.some.injEq] at hf
    rw [← hf]
  | cons i rest ih =>
    intro cells f hf j hj
    cases hcell : is_cell_alive_next_gen b rules (i / b.width) (i % b.width) with
    | none => simp only [next_loop, hcell] at hf; cases hf
    | some r =>
      simp only [next_loop, hcell] at hf
      rw [ih _ f hf j (fun hm => hj (List.mem_cons_of_mem i hm))]
      rw [if_neg (fun he => hj (by rw [he]; exact List.mem_cons_self i rest))]

lemma next_loop_isSome_congr (b : Board) (rules : Rules) :
    ∀ (l : List Nat) (cells1 cells2 : Nat → Nat),
      (next_loop b rules l cells1).isSome = (next_loop b rules l cells2).isSome := by
  intro l
  induction l with
  | nil => intro cells1 cells2; rfl
  | cons i rest ih =>
    intro cells1 cells2
    cases hcell : is_cell_alive_next_gen b rules (i / b.width) (i % b.width) with
    | none => simp only [next_loop, hcell]
    | some r => simp only [next_loop, hcell]; exact ih _ _

lemma next_loop_values (b : Board) (rules : Rules) :
    ∀ (l : List Nat), l.Nodup → ∀ (cells f : Nat → Nat),
      next_loop b rules l cells = some f →
      ∀ j ∈ l, is_cell_alive_next_gen b rules (j / b.width) (j % b.width) = some (f j) := by
  intro l
  induction l with
  | nil => intro _ cells f _ j hj; exact absurd hj (List.not_mem_nil j)
  | cons i rest ih =>
    intro hnd cells f hf j hj
    rw [List.nodup_cons] at hnd
    cases hcell : is_cell_alive_next_gen b rules (i / b.width) (i % b.width) with
    | none => simp only [next_loop, hcell] at hf; cases hf
    | some r =>
      simp only [next_loop, hcell] at hf
      rcases List.mem_cons.1 hj with rfl | hmem
      · rw [hcell, next_loop_frame b rules rest _ f hf j hnd.1, if_pos rfl]
      · exact ih hnd.2 _ f hf j hmem

lemma next_loop_total (b : Board) (rules : Rules) :
    ∀ (l : List Nat) (cells : Nat → Nat),
      (∀ i ∈ l, (is_cell_alive_next_gen b rules (i / b.width) (i % b.width)).isSome = true) →
      (next_loop b rules l cells).isSome = true := by
  intro l
  induction l with
  | nil => intro cells _; rfl
  | cons i rest ih =>
    intro cells h
    cases hcell : is_cell_alive_next_gen b rules (i / b.width) (i % b.width) with
    | none => exact absurd (h i (List.mem_cons_self i rest)) (by rw [hcell]; simp)
    | some r => simp only [next_loop, hcell]; exact ih _ (fun k hk => h k (List.mem_cons_of_mem i hk))



lemma opt_map_isSome {α β : Type} (f : α → β) (x : Option α) :
    (x.map f).isSome = x.isSome := by cases x <;> rfl

lemma opt_map_eq_some {α β : Type} (f : α → β) (x : Option α) (b : β) :
    x.map f = some b ↔ ∃ a, x = some a ∧ f a = b := by cases x <;> simp

lemma flat_div (W r c : Nat) (hc : c < W) :
    (r * W + c) / W = r ∧ (r * W + c) % W = c := by
  have hW : 0 < W := by omega
  constructor
  · rw [Nat.mul_comm r W, Nat.mul_add_div hW, Nat.div_eq_of_lt hc, Nat.add_zero]
  · rw [Nat.mul_comm r W, Nat.mul_add_mod, Nat.mod_eq_of_lt hc]

lemma board_next_some_iff (grid out : Board) (rules : Rules) (bb : Board) :
    board_next grid out rules = some bb ↔
      ((grid.width = out.width ∧ grid.height = out.height) ∧
        ∃ f, next_loop grid rules (List.range (grid.width * grid.height)) out.cells = some f ∧
          bb = { out with cells := f }) := by
  unfold board_next
  by_cases hd : grid.width ≠ out.width ∨ grid.height ≠ out.height
  · rw [if_pos hd]
    constructor
    · intro h; cases h
    · rintro ⟨⟨h1, h2⟩, -⟩
      rcases hd with h | h
      · exact absurd h1 h
      · exact absurd h2 h
  · rw [if_neg hd]
    push_neg at hd
    rw [opt_map_eq_some]
    constructor
    · rintro ⟨a, ha, hb⟩; exact ⟨⟨hd.1, hd.2⟩, a, ha, hb.symm⟩
    · rintro ⟨-, f, hf, hbb⟩; exact ⟨f, hf, hbb.symm⟩

lemma board_next_loop_isSome (grid : Board) (rules : Rules) (hwf : WellFormed grid)
    (cells : Nat → Nat) :
    (next_loop grid rules (List.range (grid.width * grid.height)) cells).isSome = true := by
  apply next_loop_total
  intro i hi
  rw [List.mem_range] at hi
  have hW : 0 < grid.width := by
    rcases Nat.eq_zero_or_pos grid.width with h0 | h0
    · rw [h0] at hi; simp at hi
    · exact h0
  have hx : i / grid.width < grid.height :=
    (Nat.div_lt_iff_lt_mul hW).2 (by rw [Nat.mul_comm grid.height grid.width]; exact hi)
  exact is_cell_isSome grid rules _ _ hwf hx (Nat.mod_lt i hW)

lemma board_next_concrete (b out target : Board) (rules : Rules)
    (hw : b.width = out.width) (hh : b.height = out.height)
    (hth : target.height = out.height) (htw : target.width = out.width)
    (hcells : ∀ j, j < b.width * b.height →
      is_cell_alive_next_gen b rules (j / b.width) (j % b.width) = some (target.cells j))
    (hout : ∀ j, b.width * b.height ≤ j → target.cells j = out.cells j) :
    board_next b out rules = some target := by
  have hsome : (next_loop b rules (List.range (b.width * b.height)) out.cells).isSome = true := by
    apply next_loop_total
    intro i hi
    rw [List.mem_range] at hi
    rw [hcells i hi]
    rfl
  obtain ⟨f, hf⟩ := Option.isSome_iff_exists.1 hsome
  have hfe : target.cells = f := by
    funext j
    by_cases hj : j < b.width * b.height
    · have h1 := next_loop_values b rules _ (List.nodup_range _) _ f hf j (List.mem_range.2 hj)
      have h2 := hcells j hj
      rw [h1] at h2
      exact (Option.some.inj h2).symm
    · rw [next_loop_frame b rules _ _ f hf j (by rw [List.mem_range]; omega)]
      exact hout j (by omega)
  rw [board_next_some_iff]
  refine ⟨⟨hw, hh⟩, f, hf, ?_⟩
  show (⟨target.height, target.width, target.cells⟩ : Board) = _
  rw [hth, htw, hfe]

/-- Claim C1: for well-formed boards, `board_next` fails exactly on a
dimension mismatch between `grid` and `out`; when the dimensions match it
succeeds and every in-bounds cell of the output equals `rules_apply`
applied to the input cell and the neighbor count, both computed from the
input grid alone. -/
theorem board_next_correct (grid out : Board) (rules : Rules)
    (hwfg : WellFormed grid) (hwfo : WellFormed out) :
    ((out.height ≠ grid.height ∨ out.width ≠ grid.width) →
      board_next grid out rules = none) ∧
    (out.height = grid.height → out.width = grid.width →
      ∃ out2, board_next grid out rules = some out2 ∧
        out2.height = grid.height ∧ out2.width = grid.width ∧
        ∀ row col, row < grid.height → col < grid.width →
          rules_apply rules (grid.cells (row * grid.width + col))
              (neighborCount grid row col : Int) =
            some (out2.cells (row * grid.width + col))) := by
  constructor
  · intro h
    unfold board_next
    rw [if_pos]
    rcases h with h | h
    · exact Or.inr (Ne.symm h)
    · exact Or.inl (Ne.symm h)
  · intro hh hw
    obtain ⟨f, hf⟩ := Option.isSome_iff_exists.1 (board_next_loop_isSome grid rules hwfg out.cells)
    refine ⟨{ out with cells := f }, ?_, by rw [hh], by rw [hw], ?_⟩
    · rw [board_next_some_iff]
      exact ⟨⟨hw.symm, hh.symm⟩, f, hf, rfl⟩
    · intro row col hrow hcol
      have hidx : row * grid.width + col < grid.width * grid.height := flat_lt row col hrow hcol
      have hdm := flat_div grid.width row col hcol
      have hv := next_loop_values grid rules (List.range (grid.width * grid.height))
        (List.nodup_range _) out.cells f hf (row * grid.width + col) (List.mem_range.2 hidx)
      rw [hdm.1, hdm.2] at hv
      rw [← is_cell_eq grid rules row col hrow hcol]
      exact hv

/-- Witness for C1 on concrete 1x1 boards with matching dimensions. -/
theorem board_next_correct_witness :
    ∃ out2, board_next ⟨1, 1, fun _ => 0⟩ ⟨1, 1, fun _ => 1⟩ rules_conway = some out2 ∧
      out2.height = 1 ∧ out2.width = 1 ∧
      ∀ row col, row < 1 → col < 1 →
        rules_apply rules_conway ((fun _ => (0 : Nat)) (row * 1 + col))
            (neighborCount ⟨1, 1, fun _ => 0⟩ row col : Int) =
          some (out2.cells (row * 1 + col)) :=
  (board_next_correct ⟨1, 1, fun _ => 0⟩ ⟨1, 1, fun _ => 1⟩ rules_conway
    (fun _ _ => Nat.zero_le 1) (fun _ _ => Nat.le_refl 1)).2 rfl rfl



/-- Claim C10: once the dimension-equality precondition of `board_next`
holds, the per-cell error branch is unreachable: every coordinate pair
generated from the flat loop index is in bounds, its neighbor count is at
most 8, `is_cell_alive_next_gen` returns a result for it, and
`board_next` succeeds on matching well-formed boards. -/
theorem board_next_no_error (grid out : Board) (rules : Rules) (hwf : WellFormed grid)
    (hh : out.height = grid.height) (hw : out.width = grid.width) :
    (∀ i, i < grid.width * grid.height →
      i / grid.width < grid.height ∧ i % grid.width < grid.width ∧
      neighborCount grid (i / grid.width) (i % grid.width) ≤ 8 ∧
      (is_cell_alive_next_gen grid rules (i / grid.width) (i % grid.width)).isSome = true) ∧
    (board_next grid out rules).isSome = true := by
  constructor
  · intro i hi
    have hW : 0 < grid.width := by
      rcases Nat.eq_zero_or_pos grid.width with h0 | h0
      · rw [h0] at hi; simp at hi
      · exact h0
    have hx : i / grid.width < grid.height :=
      (Nat.div_lt_iff_lt_mul hW).2 (by rw [Nat.mul_comm grid.height grid.width]; exact hi)
    have hy : i % grid.width < grid.width := Nat.mod_lt i hW
    exact ⟨hx, hy, neighborCount_le_eight grid _ _ hwf hx hy,
      is_cell_isSome grid rules _ _ hwf hx hy⟩
  · unfold board_next
    rw [if_neg (by rw [hh, hw]; simp)]
    rw [opt_map_isSome]
    exact board_next_loop_isSome grid rules hwf out.cells

/-- Witness for C10 on concrete 2x2 boards. -/
theorem board_next_no_error_witness :
    (∀ i, i < 2 * 2 →
      i / 2 < 2 ∧ i % 2 < 2 ∧
      neighborCount ⟨2, 2, fun _ => 1⟩ (i / 2) (i % 2) ≤ 8 ∧
      (is_cell_alive_next_gen ⟨2, 2, fun _ => 1⟩ rules_conway (i / 2) (i % 2)).isSome = true) ∧
    (board_next ⟨2, 2, fun _ => 1⟩ ⟨2, 2, fun _ => 0⟩ rules_conway).isSome = true :=
  board_next_no_error ⟨2, 2, fun _ => 1⟩ ⟨2, 2, fun _ => 0⟩ rules_conway
    (fun _ _ => Nat.le_refl 1) rfl rfl

/-- Claim C8: `board_next` reads only the input grid: with equal-size
output buffers the success status and every in-range output cell are
independent of the output buffer's prior contents, every written cell is
the `is_cell_alive_next_gen` value computed from the input grid alone
(so no cell written into `out` is ever read back as a neighbor within
the same step), and out-of-range cells of the output buffer are left
untouched. The input grid itself is a pure value in this embedding and
is returned unchanged by construction. -/
theorem board_next_frame (grid out1 out2 : Board) (rules : Rules)
    (hh : out1.height = out2.height) (hw : out1.width = out2.width) :
    ((board_next grid out1 rules).isSome = (board_next grid out2 rules).isSome) ∧
    (∀ b1 b2, board_next grid out1 rules = some b1 → board_next grid out2 rules = some b2 →
      ∀ j, j < grid.width * grid.height → b1.cells j = b2.cells j) ∧
    (∀ b1, board_next grid out1 rules = some b1 →
      (∀ j, j < grid.width * grid.height →
        is_cell_alive_next_gen grid rules (j / grid.width) (j % grid.width) =
          some (b1.cells j)) ∧
      (∀ j, grid.width * grid.height ≤ j → b1.cells j = out1.cells j)) := by
  refine ⟨?_, ?_, ?_⟩
  · unfold board_next
    by_cases hd : grid.width ≠ out1.width ∨ grid.height ≠ out1.height
    · rw [if_pos hd, if_pos (by rw [← hh, ← hw]; exact hd)]
    · rw [if_neg hd, if_neg (by rw [← hh, ← hw]; exact hd)]
      rw [opt_map_isSome, opt_map_isSome]
      exact next_loop_isSome_congr grid rules _ _ _
  · intro b1 b2 h1 h2 j hj
    rw [board_next_some_iff] at h1 h2
    obtain ⟨-, f1, hf1, rfl⟩ := h1
    obtain ⟨-, f2, hf2, rfl⟩ := h2
    have hv1 := next_loop_values grid rules _ (List.nodup_range _) _ f1 hf1 j (List.mem_range.2 hj)
    have hv2 := next_loop_values grid rules _ (List.nodup_range _) _ f2 hf2 j (List.mem_range.2 hj)
    rw [hv1] at hv2
    exact Option.some.inj hv2
  · intro b1 h1
    rw [board_next_some_iff] at h1
    obtain ⟨-, f1, hf1, rfl⟩ := h1
    constructor
    · intro j hj
      exact next_loop_values grid rules _ (List.nodup_range _) _ f1 hf1 j (List.mem_range.2 hj)
    · intro j hj
      exact next_loop_frame grid rules _ _ f1 hf1 j (by rw [List.mem_range]; omega)

/-- Witness for C8 on concrete 2x2 boards with different prior contents
in the two output buffers. -/
theorem board_next_frame_witness :
    (board_next ⟨2, 2, fun _ => 1⟩ ⟨2, 2, fun _ => 0⟩ rules_conway).isSome =
      (board_next ⟨2, 2, fun _ => 1⟩ ⟨2, 2, fun _ => 1⟩ rules_conway).isSome :=
  (board_next_frame ⟨2, 2, fun _ => 1⟩ ⟨2, 2, fun _ => 0⟩ ⟨2, 2, fun _ => 1⟩
    rules_conway rfl rfl).1



lemma blinker_step1_row0 : ∀ c, c < 5 →
    is_cell_alive_next_gen blinkerH rules_conway 0 c = some (blinkerV.cells (0 * 5 + c)) := by
  decide

lemma blinker_step1_row1 : ∀ c, c < 5 →
    is_cell_alive_next_gen blinkerH rules_conway 1 c = some (blinkerV.cells (1 * 5 + c)) := by
  decide

lemma blinker_step1_row2 : ∀ c, c < 5 →
    is_cell_alive_next_gen blinkerH rules_conway 2 c = some (blinkerV.cells (2 * 5 + c)) := by
  decide

lemma blinker_step1_row3 : ∀ c, c < 5 →
    is_cell_alive_next_gen blinkerH rules_conway 3 c = some (blinkerV.cells (3 * 5 + c)) := by
  decide

lemma blinker_step1_row4 : ∀ c, c < 5 →
    is_cell_alive_next_gen blinkerH rules_conway 4 c = some (blinkerV.cells (4 * 5 + c)) := by
  decide

lemma blinker_step2_row0 : ∀ c, c < 5 →
    is_cell_alive_next_gen blinkerV rules_conway 0 c = some (blinkerH.cells (0 * 5 + c)) := by
  decide

lemma blinker_step2_row1 : ∀ c, c < 5 →
    is_cell_alive_next_gen blinkerV rules_conway 1 c = some (blinkerH.cells (1 * 5 + c)) := by
  decide

lemma blinker_step2_row2 : ∀ c, c < 5 →
    is_cell_alive_next_gen blinkerV rules_conway 2 c = some (blinkerH.cells (2 * 5 + c)) := by
  decide

lemma blinker_step2_row3 : ∀ c, c < 5 →
    is_cell_alive_next_gen blinkerV rules_conway 3 c = some (blinkerH.cells (3 * 5 + c)) := by
  decide

lemma blinker_step2_row4 : ∀ c, c < 5 →
    is_cell_alive_next_gen blinkerV rules_conway 4 c = some (blinkerH.cells (4 * 5 + c)) := by
  decide

lemma blinker_step1_cells : ∀ j, j < blinkerH.width * blinkerH.height →
    is_cell_alive_next_gen blinkerH rules_conway (j / blinkerH.width) (j % blinkerH.width) =
      some (blinkerV.cells j) := by
  intro j hj
  have hj25 : j < 25 := hj
  have hc : j % 5 < 5 := Nat.mod_lt j (by norm_num)
  have hidx : j / 5 * 5 + j % 5 = j := by omega
  have key : is_cell_alive_next_gen blinkerH rules_conway (j / 5) (j % 5) =
      some (blinkerV.cells (j / 5 * 5 + j % 5)) := by
    have hd : j / 5 < 5 := by omega
    set r := j / 5 with hr
    interval_cases r
    · exact blinker_step1_row0 (j % 5) hc
    · exact blinker_step1_row1 (j % 5) hc
    · exact blinker_step1_row2 (j % 5) hc
    · exact blinker_step1_row3 (j % 5) hc
    · exact blinker_step1_row4 (j % 5) hc
  rw [hidx] at key
  exact key

lemma blinker_step2_cells : ∀ j, j < blinkerV.width * blinkerV.height →
    is_cell_alive_next_gen blinkerV rules_conway (j / blinkerV.width) (j % blinkerV.width) =
      some (blinkerH.cells j) := by
  intro j hj
  have hj25 : j < 25 := hj
  have hc : j % 5 < 5 := Nat.mod_lt j (by norm_num)
  have hidx : j / 5 * 5 + j % 5 = j := by omega
  have key : is_cell_alive_next_gen blinkerV rules_conway (j / 5) (j % 5) =
      some (blinkerH.cells (j / 5 * 5 + j % 5)) := by
    have hd : j / 5 < 5 := by omega
    set r := j / 5 with hr
    interval_cases r
    · exact blinker_step2_row0 (j % 5) hc
    · exact blinker_step2_row1 (j % 5) hc
    · exact blinker_step2_row2 (j % 5) hc
    · exact blinker_step2_row3 (j % 5) hc
    · exact blinker_step2_row4 (j % 5) hc
  rw [hidx] at key
  exact key

/-- Claim C7: from the 5x5 horizontal blinker, one Conway step yields
exactly the vertical blinker (1,2),(2,2),(3,2) and a second step restores
exactly the original horizontal board (period-2 oscillator); the two
pattern characterizations pin down every cell of both boards. -/
theorem conway_blinker_period_two :
    board_next blinkerH deadFive rules_conway = some blinkerV ∧
    board_next blinkerV deadFive rules_conway = some blinkerH ∧
    (∀ r, r < 5 → ∀ c, c < 5 →
      (blinkerV.cells (r * 5 + c) = 1 ↔
        ((r, c) = (1, 2) ∨ (r, c) = (2, 2) ∨ (r, c) = (3, 2)))) ∧
    (∀ r, r < 5 → ∀ c, c < 5 →
      (blinkerH.cells (r * 5 + c) = 1 ↔
        ((r, c) = (2, 1) ∨ (r, c) = (2, 2) ∨ (r, c) = (2, 3)))) := by
  refine ⟨?_, ?_, by decide, by decide⟩
  · refine board_next_concrete blinkerH deadFive blinkerV rules_conway rfl rfl rfl rfl
      blinker_step1_cells ?_
    intro j hj
    have hj2 : 25 ≤ j := hj
    show (if j = 1 * 5 + 2 ∨ j = 2 * 5 + 2 ∨ j = 3 * 5 + 2 then 1 else 0) = (0 : Nat)
    rw [if_neg (by omega)]
  · refine board_next_concrete blinkerV deadFive blinkerH rules_conway rfl rfl rfl rfl
      blinker_step2_cells ?_
    intro j hj
    have hj2 : 25 ≤ j := hj
    show (if j = 2 * 5 + 1 ∨ j = 2 * 5 + 2 ∨ j = 2 * 5 + 3 then 1 else 0) = (0 : Nat)
    rw [if_neg (by omega)]

/-- Claim C6 (code bug): `board_init` returns NULL when the board-struct
malloc fails and zero-fills all cells on full success, but when only the
cell-buffer calloc fails it still returns a board, with a NULL cell
buffer, because the calloc result is stored unchecked — contradicting its
own doc comment ("returns NULL on memory allocation failure") and the
spec. -/
theorem board_init_unchecked_calloc (height width : Nat) :
    board_init height width false false = none ∧
    (∃ cb, board_init height width true true = some cb ∧
      cb.height = height ∧ cb.width = width ∧ cb.cells = some (fun _ => 0)) ∧
    board_init height width true false = some ⟨height, width, none⟩ :=
  ⟨rfl, ⟨⟨height, width, some (fun _ => 0)⟩, rfl, rfl, rfl, rfl⟩, rfl⟩



lemma idx_ne_of_row_lt (W r1 k1 r2 k2 : Nat) (hk1 : k1 < W) (hr : r1 < r2) :
    r1 * W + k1 ≠ r2 * W + k2 := by
  intro he
  have h1 : r1 * W + k1 < (r1 + 1) * W := by rw [Nat.add_mul, Nat.one_mul]; omega
  have h2 : (r1 + 1) * W ≤ r2 * W := Nat.mul_le_mul_right W hr
  omega

lemma idx_inj (W r1 k1 r2 k2 : Nat) (h1 : k1 < W) (h2 : k2 < W)
    (he : r1 * W + k1 = r2 * W + k2) : r1 = r2 ∧ k1 = k2 := by
  have d1 := flat_div W r1 k1 h1
  have d2 := flat_div W r2 k2 h2
  constructor
  · rw [← d1.1, he, d2.1]
  · rw [← d1.2, he, d2.2]

lemma paintRow_frame (b : Board) (x : Nat) :
    ∀ (row : List Char) (y : Nat) (cells : Nat → Nat) (j : Nat),
      (∀ k, k < row.length → j ≠ x * b.width + (y + k)) →
      paintRow b x y cells row j = cells j := by
  intro row
  induction row with
  | nil => intro y cells j _; rfl
  | cons c cs ih =>
    intro y cells j hj
    show paintRow b x (y + 1) _ cs j = cells j
    rw [ih (y + 1) _ j ?_]
    · have h0 := hj 0 (Nat.succ_pos cs.length)
      rw [Nat.add_zero] at h0
      exact if_neg h0
    · intro k hk he
      exact hj (k + 1) (by simpa using Nat.succ_lt_succ hk)
        (he.trans (congrArg (fun t => x * b.width + t) (by omega)))

lemma paintRow_get (b : Board) (x : Nat) :
    ∀ (row : List Char) (y : Nat) (cells : Nat → Nat) (k : Nat) (hk : k < row.length),
      paintRow b x y cells row (x * b.width + (y + k)) =
        (if row.get ⟨k, hk⟩ ≠ '0' then 1 else 0) := by
  intro row
  induction row with
  | nil => intro y cells k hk; exact absurd hk (Nat.not_lt_zero k)
  | cons c cs ih =>
    intro y cells k hk
    cases k with
    | zero =>
      show paintRow b x (y + 1) _ cs (x * b.width + (y + 0)) = _
      rw [paintRow_frame b x cs (y + 1) _ _ ?_]
      · exact if_pos (congrArg (fun t => x * b.width + t) (Nat.add_zero y))
      · intro k' hk' he
        have := Nat.add_left_cancel he
        omega
    | succ k' =>
      show paintRow b x (y + 1) _ cs (x * b.width + (y + (k' + 1))) = _
      rw [show x * b.width + (y + (k' + 1)) = x * b.width + ((y + 1) + k') from
        congrArg (fun t => x * b.width + t) (by omega)]
      exact ih (y + 1) _ k' (Nat.lt_of_succ_lt_succ hk)

lemma paintRows_frame (b : Board) :
    ∀ (rows : List (List Char)) (x : Nat) (cells : Nat → Nat) (j : Nat),
      (∀ r, (hr : r < rows.length) → ∀ k, k < (rows.get ⟨r, hr⟩).length →
        j ≠ (x + r) * b.width + k) →
      paintRows b x cells rows j = cells j := by
  intro rows
  induction rows with
  | nil => intro x cells j _; rfl
  | cons row rest ih =>
    intro x cells j hj
    show paintRows b (x + 1) _ rest j = cells j
    rw [ih (x + 1) _ j ?_]
    · apply paintRow_frame
      intro k hk he
      refine hj 0 (Nat.succ_pos rest.length) k hk (he.trans ?_)
      show x * b.width + (0 + k) = (x + 0) * b.width + k
      rw [Nat.add_zero, Nat.zero_add]
    · intro r hr k hk he
      refine hj (r + 1) (by simpa using Nat.succ_lt_succ hr) k hk (he.trans ?_)
      exact congrArg (fun t => t * b.width + k) (by omega)

lemma paintRows_get (b : Board) :
    ∀ (rows : List (List Char)) (x : Nat) (cells : Nat → Nat)
      (r : Nat) (hr : r < rows.length) (k : Nat) (hk : k < (rows.get ⟨r, hr⟩).length),
      (∀ row ∈ rows, row.length ≤ b.width) →
      paintRows b x cells rows ((x + r) * b.width + k) =
        (if (rows.get ⟨r, hr⟩).get ⟨k, hk⟩ ≠ '0' then 1 else 0) := by
  intro rows
  induction rows with
  | nil => intro x cells r hr; exact absurd hr (Nat.not_lt_zero r)
  | cons row rest ih =>
    intro x cells r hr k hk hall
    have hroww : row.length ≤ b.width := hall row (List.mem_cons_self row rest)
    cases r with
    | zero =>
      show paintRows b (x + 1) _ rest ((x + 0) * b.width + k) = _
      rw [show (x + 0) * b.width + k = x * b.width + k from
        congrArg (fun t => t * b.width + k) (Nat.add_zero x)]
      rw [paintRows_frame b rest (x + 1) _ _ ?_]
      · rw [show x * b.width + k = x * b.width + (0 + k) from
          congrArg (fun t => x * b.width + t) (Nat.zero_add k).symm]
        exact paintRow_get b x row 0 cells k hk
      · intro r' hr' k' hk' he
        have hkW : k < b.width := Nat.lt_of_lt_of_le hk hroww
        exact idx_ne_of_row_lt b.width x k ((x + 1) + r') k' hkW (by omega) he
    | succ r' =>
      show paintRows b (x + 1) _ rest ((x + (r' + 1)) * b.width + k) = _
      rw [show (x + (r' + 1)) * b.width + k = ((x + 1) + r') * b.width + k from
        congrArg (fun t => t * b.width + k) (by omega)]
      exact ih (x + 1) _ r' (Nat.lt_of_succ_lt_succ hr) k hk
        (fun rw2 h2 => hall rw2 (List.mem_cons_of_mem row h2))



lemma load_loop_row (b : Board) :
    ∀ (row rest : List Char) (x y : Nat) (cells : Nat → Nat),
      ('\n' : Char) ∉ row → x < b.height → y + row.length ≤ b.width →
      load_loop b (row ++ rest) x y cells =
        load_loop b rest x (y + row.length) (paintRow b x y cells row) := by
  intro row
  induction row with
  | nil =>
    intro rest x y cells _ _ _
    simp only [List.nil_append, List.length_nil, Nat.add_zero]
    rfl
  | cons c cs ih =>
    intro rest x y cells hnl hx hyw
    have hc : c ≠ '\n' := fun he => hnl (he ▸ List.mem_cons_self c cs)
    show load_loop b (c :: (cs ++ rest)) x y cells = _
    rw [load_loop, if_neg hc, if_neg (by simp only [List.length_cons] at hyw; omega)]
    rw [ih rest x (y + 1) _ (fun hm => hnl (List.mem_cons_of_mem c hm)) hx
      (by simp only [List.length_cons] at hyw ⊢; omega)]
    simp only [List.length_cons]
    rw [show (y + 1) + cs.length = y + (cs.length + 1) from by omega]
    rfl

lemma load_loop_rows (b : Board) :
    ∀ (rows : List (List Char)) (x : Nat) (cells : Nat → Nat),
      (∀ row ∈ rows, ('\n' : Char) ∉ row ∧ row.length ≤ b.width) →
      x + rows.length ≤ b.height →
      load_loop b (encodeRows rows) x 0 cells = some (paintRows b x cells rows) := by
  intro rows
  induction rows with
  | nil => intro x cells _ _; rfl
  | cons row rest ih =>
    intro x cells hall hx
    have hrow := hall row (List.mem_cons_self row rest)
    have hxh : x < b.height := by simp only [List.length_cons] at hx; omega
    cases rest with
    | nil =>
      have h1 := load_loop_row b row [] x 0 cells hrow.1 hxh
        (by simpa using hrow.2)
      rw [List.append_nil] at h1
      rw [show encodeRows [row] = row from rfl, h1]
      rfl
    | cons row2 rest2 =>
      rw [show encodeRows (row :: row2 :: rest2) = row ++ '\n' :: encodeRows (row2 :: rest2)
        from rfl]
      rw [load_loop_row b row _ x 0 cells hrow.1 hxh (by simpa using hrow.2)]
      rw [show load_loop b ('\n' :: encodeRows (row2 :: rest2)) x (0 + row.length)
          (paintRow b x 0 cells row) =
        load_loop b (encodeRows (row2 :: rest2)) (x + 1) 0 (paintRow b x 0 cells row)
        from by rw [load_loop, if_pos rfl]]
      exact ih (x + 1) _ (fun rw2 h2 => hall rw2 (List.mem_cons_of_mem row h2))
        (by simp only [List.length_cons] at hx ⊢; omega)

lemma load_loop_row_fail (b : Board) :
    ∀ (row rest : List Char) (x y : Nat) (cells : Nat → Nat),
      ('\n' : Char) ∉ row →
      (∃ k, k < row.length ∧ (b.height ≤ x ∨ b.width ≤ y + k)) →
      load_loop b (row ++ rest) x y cells = none := by
  intro row
  induction row with
  | nil => intro rest x y cells _ h; obtain ⟨k, hk, -⟩ := h; exact absurd hk (Nat.not_lt_zero k)
  | cons c cs ih =>
    intro rest x y cells hnl h
    obtain ⟨k, hk, hor⟩ := h
    have hc : c ≠ '\n' := fun he => hnl (he ▸ List.mem_cons_self c cs)
    show load_loop b (c :: (cs ++ rest)) x y cells = none
    rw [load_loop, if_neg hc]
    by_cases hb : b.height ≤ x ∨ b.width ≤ y
    · rw [if_pos hb]
    · rw [if_neg hb]
      push_neg at hb
      refine ih rest x (y + 1) _ (fun hm => hnl (List.mem_cons_of_mem c hm)) ?_
      refine ⟨k - 1, ?_, Or.inr ?_⟩
      · simp only [List.length_cons] at hk
        omega
      · omega

lemma load_loop_rows_fail (b : Board) :
    ∀ (rows : List (List Char)) (x : Nat) (cells : Nat → Nat),
      (∀ row ∈ rows, ('\n' : Char) ∉ row) →
      (∃ r, ∃ (hr : r < rows.length), ∃ k, k < (rows.get ⟨r, hr⟩).length ∧
        (b.height ≤ x + r ∨ b.width ≤ k)) →
      load_loop b (encodeRows rows) x 0 cells = none := by
  intro rows
  induction rows with
  | nil => intro x cells _ h; obtain ⟨r, hr, -⟩ := h; exact absurd hr (Nat.not_lt_zero r)
  | cons row rest ih =>
    intro x cells hnl h
    obtain ⟨r, hr, k, hk, hor⟩ := h
    have hnlrow : ('\n' : Char) ∉ row := hnl row (List.mem_cons_self row rest)
    have henc : ∃ t, encodeRows (row :: rest) = row ++ t := by
      cases rest with
      | nil => exact ⟨[], by rw [show encodeRows [row] = row from rfl, List.append_nil]⟩
      | cons row2 rest2 => exact ⟨'\n' :: encodeRows (row2 :: rest2), rfl⟩
    by_cases hoff : ∃ k2, k2 < row.length ∧ (b.height ≤ x ∨ b.width ≤ 0 + k2)
    · obtain ⟨t, ht⟩ := henc
      rw [ht]
      exact load_loop_row_fail b row t x 0 cells hnlrow hoff
    · push_neg at hoff
      cases r with
      | zero =>
        exfalso
        have := hoff k hk
        rcases hor with h1 | h1
        · omega
        · omega
      | succ r2 =>
        cases rest with
        | nil => exact absurd (by simpa using hr) (Nat.not_lt_zero r2)
        | cons row2 rest2 =>
          have hrest : ∃ r3, ∃ (hr3 : r3 < (row2 :: rest2).length), ∃ k3,
              k3 < ((row2 :: rest2).get ⟨r3, hr3⟩).length ∧
              (b.height ≤ (x + 1) + r3 ∨ b.width ≤ k3) := by
            refine ⟨r2, by simpa using hr, k, hk, ?_⟩
            rcases hor with h1 | h1
            · exact Or.inl (by omega)
            · exact Or.inr h1
          have hnlrest : ∀ rw2 ∈ (row2 :: rest2), ('\n' : Char) ∉ rw2 :=
            fun rw2 h2 => hnl rw2 (List.mem_cons_of_mem row h2)
          cases hrownil : row with
          | nil =>
            rw [show encodeRows ([] :: row2 :: rest2) = '\n' :: encodeRows (row2 :: rest2)
              from rfl]
            rw [load_loop, if_pos rfl]
            exact ih (x + 1) cells hnlrest hrest
          | cons c0 row0 =>
            rw [← hrownil]
            have hxh : x < b.height := by
              have := hoff 0 (by rw [hrownil]; exact Nat.succ_pos row0.length)
              omega
            have hlw : row.length ≤ b.width := by
              rcases Nat.eq_zero_or_pos row.length with h0 | h0
              · omega
              · have := hoff (row.length - 1) (by omega)
                omega
            rw [show encodeRows (row :: row2 :: rest2) = row ++ '\n' :: encodeRows (row2 :: rest2)
              from rfl]
            rw [load_loop_row b row _ x 0 cells hnlrow hxh (by omega)]
            rw [show load_loop b ('\n' :: encodeRows (row2 :: rest2)) x (0 + row.length)
                (paintRow b x 0 cells row) =
              load_loop b (encodeRows (row2 :: rest2)) (x + 1) 0 (paintRow b x 0 cells row)
              from by rw [load_loop, if_pos rfl]]
            exact ih (x + 1) _ hnlrest hrest



/-- Claim C5: loading a pattern text whose rows all fit in the grid
succeeds; afterwards cell (r,c) reads alive iff row r of the text has a
character at column c other than the literal character 0, every
uncovered in-range cell reads dead (the grid is cleared first), and the
call fails whenever some character of the text falls at a row or column
index outside the grid. -/
theorem board_from_file_round_trip (b : Board) (rows : List (List Char))
    (hnl : ∀ row ∈ rows, ('\n' : Char) ∉ row) :
    ((rows.length ≤ b.height ∧ ∀ row ∈ rows, row.length ≤ b.width) →
      ∃ b2, board_from_file (encodeRows rows) b = some b2 ∧
        b2.height = b.height ∧ b2.width = b.width ∧
        ∀ r c, r < b.height → c < b.width →
          (b2.cells (r * b.width + c) ≠ 0 ↔
            ∃ (hr : r < rows.length), ∃ (hc : c < (rows.get ⟨r, hr⟩).length),
              (rows.get ⟨r, hr⟩).get ⟨c, hc⟩ ≠ '0')) ∧
    ((∃ r, ∃ (hr : r < rows.length), ∃ c, c < (rows.get ⟨r, hr⟩).length ∧
        (b.height ≤ r ∨ b.width ≤ c)) →
      board_from_file (encodeRows rows) b = none) := by
  constructor
  · rintro ⟨hlen, hwid⟩
    have hload := load_loop_rows b rows 0 (board_clear b).cells
      (fun row hr => ⟨hnl row hr, hwid row hr⟩) (by omega)
    refine ⟨{ b with cells := paintRows b 0 (board_clear b).cells rows }, ?_, rfl, rfl, ?_⟩
    · unfold board_from_file
      rw [hload]
      rfl
    · intro r c hrh hcw
      by_cases hcov : ∃ (hr : r < rows.length), c < (rows.get ⟨r, hr⟩).length
      · obtain ⟨hr, hc⟩ := hcov
        have hget := paintRows_get b rows 0 (board_clear b).cells r hr c hc hwid
        rw [show (0 + r) * b.width + c = r * b.width + c from
          congrArg (fun t => t * b.width + c) (Nat.zero_add r)] at hget
        show paintRows b 0 (board_clear b).cells rows (r * b.width + c) ≠ 0 ↔ _
        rw [hget]
        constructor
        · intro hne
          refine ⟨hr, hc, ?_⟩
          intro h0
          rw [if_neg (by simpa using h0)] at hne
          exact hne rfl
        · rintro ⟨hr2, hc2, hne⟩
          rw [if_pos hne]
          exact Nat.one_ne_zero
      · have hframe := paintRows_frame b rows 0 (board_clear b).cells (r * b.width + c) ?_
        · show paintRows b 0 (board_clear b).cells rows (r * b.width + c) ≠ 0 ↔ _
          rw [hframe]
          unfold board_clear
          simp only []
          rw [if_pos (flat_lt r c hrh hcw)]
          simp only [ne_eq, not_true_eq_false, false_iff]
          intro hcov2
          obtain ⟨hr2, hc2, -⟩ := hcov2
          exact hcov ⟨hr2, hc2⟩
        · intro r2 hr2 k hk he
          have hkW : k < b.width :=
            Nat.lt_of_lt_of_le hk (hwid _ (List.get_mem rows r2 hr2))
          rw [show (0 + r2) * b.width + k = r2 * b.width + k from
            congrArg (fun t => t * b.width + k) (Nat.zero_add r2)] at he
          obtain ⟨rfl, rfl⟩ := idx_inj b.width r c r2 k hcw hkW he
          exact hcov ⟨hr2, hk⟩
  · rintro ⟨r, hr, c, hc, hor⟩
    unfold board_from_file
    rw [load_loop_rows_fail b rows 0 (board_clear b).cells hnl
      ⟨r, hr, c, hc, by rcases hor with h | h; exact Or.inl (by omega); exact Or.inr h⟩]
    rfl

/-- Witness for C5: a 2x2 diagonal pattern loaded into a 2x2 grid whose
prior contents are junk. -/
theorem board_from_file_round_trip_witness :
    ∃ b2, board_from_file (encodeRows [['1', '0'], ['0', '1']]) ⟨2, 2, fun _ => 5⟩ = some b2 ∧
      b2.height = 2 ∧ b2.width = 2 ∧
      ∀ r c, r < 2 → c < 2 →
        (b2.cells (r * 2 + c) ≠ 0 ↔
          ∃ (hr : r < [['1', '0'], ['0', '1']].length),
            ∃ (hc : c < ([['1', '0'], ['0', '1']].get ⟨r, hr⟩).length),
              ([['1', '0'], ['0', '1']].get ⟨r, hr⟩).get ⟨c, hc⟩ ≠ '0') :=
  (board_from_file_round_trip ⟨2, 2, fun _ => 5⟩ [['1', '0'], ['0', '1']] (by decide)).1
    ⟨by decide, by decide⟩

end GameOfLife
